import Mathlib

/-!
Verification of the olares-ollama proxy server.

The development shallowly embeds the request-rewriting, protocol-translation,
embedding-normalization, progress-store and model-acquisition logic of the
repository into Lean.  Go `map[string]interface{}` values produced by
`json.Unmarshal` are modelled as association lists with unique keys over a
simple JSON value type (`J`); Go numbers are restricted to the integers that
the claims exercise; Go strings of the model-name matching logic are modelled
as `List Char`.  Backend HTTP exchanges are modelled as oracle functions.
-/

/-- JSON values as decoded by Go `encoding/json` into `interface{}`. -/
inductive J where
  | null : J
  | jbool : Bool → J
  | num : Int → J
  | str : String → J
  | arr : List J → J
  | obj : List (String × J) → J

/-- A decoded JSON object (`map[string]interface{}`), keys unique. -/
abbrev Jobj := List (String × J)

/-- Field read on a decoded object: `m[k]` of a Go map. -/
def getF : Jobj → String → Option J
  | [], _ => none
  | (k', v) :: rest, k => if k' = k then some v else getF rest k

/-- Field write on a decoded object: `m[k] = v` of a Go map. -/
def setF : Jobj → String → J → Jobj
  | [], k, v => [(k, v)]
  | (k', v') :: rest, k, v => if k' = k then (k, v) :: rest else (k', v') :: setF rest k v

/-- Field removal on a decoded object: `delete(m, k)` of a Go map. -/
def delF : Jobj → String → Jobj
  | [], _ => []
  | (k', v') :: rest, k => if k' = k then delF rest k else (k', v') :: delF rest k

theorem getF_setF_self (m : Jobj) (k : String) (v : J) : getF (setF m k v) k = some v := by
  induction m with
  | nil => simp [getF, setF]
  | cons kv rest ih =>
    obtain ⟨k', v'⟩ := kv
    by_cases h : k' = k
    · simp [getF, setF, h]
    · simp [getF, setF, h, ih]

theorem getF_setF_ne (m : Jobj) (k k' : String) (v : J) (h : k' ≠ k) :
    getF (setF m k' v) k = getF m k := by
  induction m with
  | nil => simp [getF, setF, h]
  | cons kv rest ih =>
    obtain ⟨k₀, v₀⟩ := kv
    by_cases h0 : k₀ = k'
    · simp [getF, setF, h0, h]
    · by_cases h1 : k₀ = k <;> simp [getF, setF, h0, h1, Ne.symm h, ih]

theorem getF_delF_ne (m : Jobj) (k k' : String) (h : k' ≠ k) :
    getF (delF m k') k = getF m k := by
  induction m with
  | nil => simp [delF]
  | cons kv rest ih =>
    obtain ⟨k₀, v₀⟩ := kv
    by_cases h0 : k₀ = k'
    · subst h0
      simp [getF, delF, h, ih]
    · by_cases h1 : k₀ = k <;> simp [getF, delF, h0, h1, Ne.symm h, ih]

/-!
Request rewriting (src/internal/server/handlers.go).

`handleInferenceRequest` parses the body, overwrites the `model` field with
the configured model and forwards the re-serialized object; the body
transformation is the part embedded here.
-/

/-- Body rewrite of `handleInferenceRequest`: `requestData["model"] = s.config.Model`. -/
def handleInferenceRequestBody (cfg : String) (requestData : Jobj) : Jobj :=
  setF requestData "model" (J.str cfg)

/-- Message conversion loop of `handleOpenAIInferenceRequest`: each object
message is reduced to its `role` and `content` fields (missing fields become
`nil`/null, as in the Go map literal); non-object messages are skipped. -/
def convertMessages (messages : List J) : List Jobj :=
  messages.filterMap fun msg =>
    match msg with
    | J.obj msgMap => some [("role", (getF msgMap "role").getD J.null),
                            ("content", (getF msgMap "content").getD J.null)]
    | _ => none

/-- The `stream` extraction shared by the compatible-dialect handlers:
`stream := false`, overwritten only when the field exists and is a bool. -/
def streamFlag (req : Jobj) : Bool :=
  match getF req "stream" with
  | some (J.jbool b) => b
  | _ => false

/-- Body construction of `handleOpenAIInferenceRequest`: requires a `messages`
array with at least one valid message, then builds the Ollama request
`{"model": cfg, "messages": converted, "stream": stream}`.  `none` models the
400 error responses. -/
def handleOpenAIInferenceRequestBody (cfg : String) (openaiRequest : Jobj) : Option Jobj :=
  match getF openaiRequest "messages" with
  | some (J.arr messages) =>
    let ollamaMessages := convertMessages messages
    if ollamaMessages.length = 0 then none
    else some [("model", J.str cfg),
               ("messages", J.arr (ollamaMessages.map J.obj)),
               ("stream", J.jbool (streamFlag openaiRequest))]
  | _ => none

/-- Prompt extraction of `handleOpenAICompletions`: a string prompt is taken
as-is (even empty); otherwise the first element of a prompt array is tried and
an empty result is a 400 error. -/
def extractPrompt (openaiRequest : Jobj) : Option String :=
  match getF openaiRequest "prompt" with
  | some (J.str s) => some s
  | v =>
    let p := match v with
      | some (J.arr (J.str s :: _)) => s
      | _ => ""
    if p = "" then none else some p

/-- Optional parameter passthrough of `handleOpenAICompletions`:
`if x, ok := openaiRequest[src]; ok { ollamaRequest[dst] = x }`. -/
def copyParam (req body : Jobj) (src dst : String) : Jobj :=
  match getF req src with
  | some v => setF body dst v
  | none => body

/-- Body construction of `handleOpenAICompletions`: `{"model": cfg, "prompt": p,
"stream": s}` plus optional `max_tokens→num_predict`, `temperature`, `top_p`,
`stop` passthrough. -/
def handleOpenAICompletionsBody (cfg : String) (openaiRequest : Jobj) : Option Jobj :=
  match extractPrompt openaiRequest with
  | none => none
  | some p =>
    let base : Jobj := [("model", J.str cfg), ("prompt", J.str p),
                        ("stream", J.jbool (streamFlag openaiRequest))]
    some (copyParam openaiRequest
           (copyParam openaiRequest
             (copyParam openaiRequest
               (copyParam openaiRequest base "max_tokens" "num_predict")
               "temperature" "temperature")
             "top_p" "top_p")
           "stop" "stop")

/-- Input-to-prompt conversion of `handleSingleEmbedding`: an `input` string or
the first (string) element of an `input` array becomes `prompt`, and `input`
is deleted; a missing `input` leaves the body unchanged; other shapes are a
400 error (`none`). -/
def convertInputToPrompt (requestData : Jobj) : Option Jobj :=
  match getF requestData "input" with
  | none => some requestData
  | some input =>
    match input with
    | J.arr (first :: _) =>
      match first with
      | J.str s => some (delF (setF requestData "prompt" (J.str s)) "input")
      | _ => none
    | J.str s => some (delF (setF requestData "prompt" (J.str s)) "input")
    | _ => none

/-- Forwarded body of `handleSingleEmbedding`: model overwrite, then
input→prompt conversion. -/
def handleSingleEmbeddingBody (cfg : String) (requestData : Jobj) : Option Jobj :=
  convertInputToPrompt (setF requestData "model" (J.str cfg))

/-- Per-item forwarded body of `handleBatchEmbeddings`:
`singleRequest["input"] = input; singleRequest["model"] = cfg;
singleRequest["prompt"] = input`. -/
def mkBatchSingleRequest (cfg : String) (requestData : Jobj) (input : J) : Jobj :=
  setF (setF (setF requestData "input" input) "model" (J.str cfg)) "prompt" input

/-- Forwarded body of `handleOllamaEmbedding`: only the model is replaced. -/
def handleOllamaEmbeddingBody (cfg : String) (requestData : Jobj) : Jobj :=
  setF requestData "model" (J.str cfg)

theorem getF_copyParam_ne (req b : Jobj) (src dst k : String) (h : dst ≠ k) :
    getF (copyParam req b src dst) k = getF b k := by
  unfold copyParam
  cases getF req src with
  | none => rfl
  | some v => exact getF_setF_ne b k dst v h

theorem model_of_openai_chat_body (cfg : String) (req body : Jobj)
    (h : handleOpenAIInferenceRequestBody cfg req = some body) :
    getF body "model" = some (J.str cfg) := by
  unfold handleOpenAIInferenceRequestBody at h
  split at h
  · rename_i messages heq
    by_cases hl : (convertMessages messages).length = 0
    · simp [hl] at h
    · simp [hl] at h
      subst h
      simp [getF]
  · exact absurd h (by simp)

theorem model_of_single_embedding_body (cfg : String) (req body : Jobj)
    (h : handleSingleEmbeddingBody cfg req = some body) :
    getF body "model" = some (J.str cfg) := by
  unfold handleSingleEmbeddingBody convertInputToPrompt at h
  split at h
  · rw [Option.some_inj] at h
    subst h
    exact getF_setF_self req "model" (J.str cfg)
  · split at h
    · split at h
      · rw [Option.some_inj] at h
        subst h
        rw [getF_delF_ne _ _ _ (by decide), getF_setF_ne _ _ _ _ (by decide)]
        exact getF_setF_self req "model" (J.str cfg)
      · exact absurd h (by simp)
    · rw [Option.some_inj] at h
      subst h
      rw [getF_delF_ne _ _ _ (by decide), getF_setF_ne _ _ _ _ (by decide)]
      exact getF_setF_self req "model" (J.str cfg)
    · exact absurd h (by simp)

theorem model_of_completions_body (cfg : String) (req body : Jobj)
    (h : handleOpenAICompletionsBody cfg req = some body) :
    getF body "model" = some (J.str cfg) := by
  unfold handleOpenAICompletionsBody at h
  split at h
  · exact absurd h (by simp)
  · rw [Option.some_inj] at h
    subst h
    rw [getF_copyParam_ne _ _ _ _ _ (by decide), getF_copyParam_ne _ _ _ _ _ (by decide),
        getF_copyParam_ne _ _ _ _ _ (by decide), getF_copyParam_ne _ _ _ _ _ (by decide)]
    rfl

/-- C1: for every inference-class request (chat, generate, embeddings, in either
dialect), whatever model name the caller supplies, the body forwarded to the
backend has its `model` field set to the operator-configured target model. -/
theorem C1_forwarded_model_is_configured_model :
    (∀ (cfg : String) (req : Jobj),
       getF (handleInferenceRequestBody cfg req) "model" = some (J.str cfg))
    ∧ (∀ (cfg : String) (req body : Jobj),
         handleOpenAIInferenceRequestBody cfg req = some body →
         getF body "model" = some (J.str cfg))
    ∧ (∀ (cfg : String) (req body : Jobj),
         handleOpenAICompletionsBody cfg req = some body →
         getF body "model" = some (J.str cfg))
    ∧ (∀ (cfg : String) (req body : Jobj),
         handleSingleEmbeddingBody cfg req = some body →
         getF body "model" = some (J.str cfg))
    ∧ (∀ (cfg : String) (req : Jobj) (input : J),
         getF (mkBatchSingleRequest cfg req input) "model" = some (J.str cfg))
    ∧ (∀ (cfg : String) (req : Jobj),
         getF (handleOllamaEmbeddingBody cfg req) "model" = some (J.str cfg)) := by
  refine ⟨fun cfg req => getF_setF_self req "model" (J.str cfg),
          model_of_openai_chat_body,
          model_of_completions_body,
          model_of_single_embedding_body,
          fun cfg req input => ?_,
          fun cfg req => getF_setF_self req "model" (J.str cfg)⟩
  unfold mkBatchSingleRequest
  rw [getF_setF_ne _ _ _ _ (by decide)]
  exact getF_setF_self _ "model" (J.str cfg)

/-- C1 witness: concrete caller-supplied model names are overwritten on every
forwarding path. -/
theorem C1_forwarded_model_is_configured_model_witness :
    getF (handleInferenceRequestBody "target" [("model", J.str "caller"), ("prompt", J.str "p")])
      "model" = some (J.str "target")
    ∧ getF [("model", J.str "target"),
            ("messages", J.arr [J.obj [("role", J.str "user"), ("content", J.str "hi")]]),
            ("stream", J.jbool false)] "model" = some (J.str "target")
    ∧ getF [("model", J.str "target"), ("prompt", J.str "p"), ("stream", J.jbool false)]
        "model" = some (J.str "target")
    ∧ getF [("model", J.str "target"), ("prompt", J.str "a")] "model" = some (J.str "target") :=
  ⟨C1_forwarded_model_is_configured_model.1 "target" [("model", J.str "caller"), ("prompt", J.str "p")],
   C1_forwarded_model_is_configured_model.2.1 "target"
     [("model", J.str "caller"),
      ("messages", J.arr [J.obj [("role", J.str "user"), ("content", J.str "hi")]]),
      ("temperature", J.num 1)] _ rfl,
   C1_forwarded_model_is_configured_model.2.2.1 "target"
     [("model", J.str "caller"), ("prompt", J.str "p")] _ rfl,
   C1_forwarded_model_is_configured_model.2.2.2.1 "target"
     [("model", J.str "caller"), ("input", J.str "a")] _ rfl⟩

/-- C10: a compatible-dialect chat request is forwarded with exactly the fields
`model`, `messages`, `stream`; each forwarded message keeps only `role` and
`content`; all other caller parameters are dropped, and `stream` defaults to
false when absent or non-boolean. -/
theorem C10_openai_chat_forward_field_whitelist :
    ∀ (cfg : String) (req body : Jobj),
      handleOpenAIInferenceRequestBody cfg req = some body →
      body.map Prod.fst = ["model", "messages", "stream"]
      ∧ (∃ messages, getF req "messages" = some (J.arr messages)
          ∧ getF body "messages" = some (J.arr ((convertMessages messages).map J.obj))
          ∧ ∀ m ∈ convertMessages messages, m.map Prod.fst = ["role", "content"])
      ∧ getF body "stream" = some (J.jbool (streamFlag req))
      ∧ ((∀ b, getF req "stream" ≠ some (J.jbool b)) → streamFlag req = false) := by
  intro cfg req body h
  unfold handleOpenAIInferenceRequestBody at h
  split at h
  · rename_i messages heq
    by_cases hl : (convertMessages messages).length = 0
    · simp [hl] at h
    · simp [hl] at h
      subst h
      refine ⟨by simp, ⟨messages, heq, by simp [getF], ?_⟩, by simp [getF], ?_⟩
      · intro m hm
        unfold convertMessages at hm
        obtain ⟨a, _, hfa⟩ := List.mem_filterMap.1 hm
        cases a <;> simp at hfa
        subst hfa
        simp
      · intro hb
        unfold streamFlag
        split
        · rename_i b heqs
          exact absurd heqs (hb b)
        · rfl
  · exact absurd h (by simp)

/-- C10 witness: a request carrying `temperature`, a string-valued `stream` and
an extra message field is forwarded with only the whitelisted fields. -/
theorem C10_openai_chat_forward_field_whitelist_witness :
    [("model", J.str "target"),
     ("messages", J.arr [J.obj [("role", J.str "user"), ("content", J.str "hi")]]),
     ("stream", J.jbool false)].map Prod.fst = ["model", "messages", "stream"]
    ∧ (∃ messages,
        getF [("model", J.str "caller"),
              ("messages", J.arr [J.obj [("role", J.str "user"), ("content", J.str "hi"),
                                         ("name", J.str "bob")]]),
              ("temperature", J.num 1), ("stream", J.str "yes")] "messages"
          = some (J.arr messages)
        ∧ getF [("model", J.str "target"),
                ("messages", J.arr [J.obj [("role", J.str "user"), ("content", J.str "hi")]]),
                ("stream", J.jbool false)] "messages"
            = some (J.arr ((convertMessages messages).map J.obj))
        ∧ ∀ m ∈ convertMessages messages, m.map Prod.fst = ["role", "content"])
    ∧ getF [("model", J.str "target"),
            ("messages", J.arr [J.obj [("role", J.str "user"), ("content", J.str "hi")]]),
            ("stream", J.jbool false)] "stream"
        = some (J.jbool (streamFlag [("model", J.str "caller"),
              ("messages", J.arr [J.obj [("role", J.str "user"), ("content", J.str "hi"),
                                         ("name", J.str "bob")]]),
              ("temperature", J.num 1), ("stream", J.str "yes")]))
    ∧ ((∀ b, getF [("model", J.str "caller"),
              ("messages", J.arr [J.obj [("role", J.str "user"), ("content", J.str "hi"),
                                         ("name", J.str "bob")]]),
              ("temperature", J.num 1), ("stream", J.str "yes")] "stream"
          ≠ some (J.jbool b)) →
        streamFlag [("model", J.str "caller"),
              ("messages", J.arr [J.obj [("role", J.str "user"), ("content", J.str "hi"),
                                         ("name", J.str "bob")]]),
              ("temperature", J.num 1), ("stream", J.str "yes")] = false) :=
  C10_openai_chat_forward_field_whitelist "target"
    [("model", J.str "caller"),
     ("messages", J.arr [J.obj [("role", J.str "user"), ("content", J.str "hi"),
                                ("name", J.str "bob")]]),
     ("temperature", J.num 1), ("stream", J.str "yes")] _ rfl

/-!
Model-name matching (`ModelExists`, src/unnamed/part_003 and
src/internal/ollama/client.go).  Go strings are modelled as `List Char`;
`strings.Split(s, ":")[0]` of a string containing `:` is the segment before
the first colon, and `strings.HasPrefix` is `List.isPrefixOf`.
-/

/-- The segment of a name before the first colon:
`strings.Split(modelName, ":")[0]`. -/
def splitBase (s : List Char) : List Char := s.takeWhile (fun c => c ≠ ':')

/-- Matching logic of `Client.ModelExists` against the backend model listing:
exact match, then (for colon-bearing queries) base-name match in the listing,
then reverse tag match. -/
def ModelExists (modelName : List Char) (models : List (List Char)) : Bool :=
  if models.any (fun m => m = modelName) then true
  else if modelName.contains ':' then
    if models.any (fun m => m = splitBase modelName
        || (splitBase modelName ++ [':']).isPrefixOf m) then true
    else models.any (fun m => (modelName ++ [':']).isPrefixOf m || m = modelName)
  else models.any (fun m => (modelName ++ [':']).isPrefixOf m || m = modelName)

theorem splitBase_append_colon (fam tag : List Char) (h : ':' ∉ fam) :
    splitBase (fam ++ ':' :: tag) = fam := by
  unfold splitBase
  induction fam with
  | nil => simp
  | cons c cs ih =>
    have hc : c ≠ ':' := fun hcc => h (hcc ▸ List.mem_cons_self c cs)
    have hcs : ':' ∉ cs := fun hm => h (List.mem_cons_of_mem c hm)
    simp only [List.cons_append, List.takeWhile_cons, hc, if_pos, decide_eq_true_eq]
    simpa [hc] using ih hcs

/-- C2: `ModelExists` accepts a tagged query `fam:tag` whenever the listing
contains `fam` itself or any name beginning `fam:`, and accepts a bare query
`fam` whenever the listing contains a tagged entry `fam:tag`. -/
theorem C2_modelExists_prefix_matching :
    (∀ (fam tag : List Char) (models : List (List Char)),
       ':' ∉ fam →
       (fam ∈ models ∨ ∃ m ∈ models, (fam ++ [':']).isPrefixOf m) →
       ModelExists (fam ++ ':' :: tag) models = true)
    ∧ (∀ (fam tag : List Char) (models : List (List Char)),
       (fam ++ ':' :: tag) ∈ models →
       ModelExists fam models = true) := by
  constructor
  · intro fam tag models hfam hlist
    unfold ModelExists
    have hcontains : (fam ++ ':' :: tag).contains ':' = true := by simp
    have hbase : splitBase (fam ++ ':' :: tag) = fam := splitBase_append_colon fam tag hfam
    have hany : models.any
        (fun m => m = splitBase (fam ++ ':' :: tag)
          || (splitBase (fam ++ ':' :: tag) ++ [':']).isPrefixOf m) = true := by
      rw [hbase, List.any_eq_true]
      rcases hlist with hmem | ⟨m, hm, hpre⟩
      · exact ⟨fam, hmem, by simp⟩
      · exact ⟨m, hm, by simp [hpre]⟩
    by_cases h1 : models.any (fun m => m = fam ++ ':' :: tag)
    · rw [if_pos h1]
    · rw [if_neg h1]
      simp [hcontains, hany]
  · intro fam tag models hmem
    unfold ModelExists
    have hrev : models.any
        (fun m => (fam ++ [':']).isPrefixOf m || m = fam) = true := by
      rw [List.any_eq_true]
      refine ⟨fam ++ ':' :: tag, hmem, ?_⟩
      have hpre : (fam ++ [':']).isPrefixOf (fam ++ ':' :: tag) = true := by
        have he : fam ++ ':' :: tag = (fam ++ [':']) ++ tag := by simp
        rw [he]
        exact List.isPrefixOf_iff_prefix.2 (List.prefix_append _ _)
      simp [hpre]
    by_cases h1 : models.any (fun m => m = fam)
    · rw [if_pos h1]
    · rw [if_neg h1]
      by_cases hc : fam.contains ':'
      · rw [if_pos hc]
        by_cases hb : models.any
            (fun m => m = splitBase fam || (splitBase fam ++ [':']).isPrefixOf m)
        · rw [if_pos hb]
        · rw [if_neg hb]
          exact hrev
      · rw [if_neg hc]
        exact hrev

/-- C2 witness: the query `cogito:14b` matches a listing containing `cogito`,
and the bare query `cogito` matches a listing containing `cogito:14b`. -/
theorem C2_modelExists_prefix_matching_witness :
    ModelExists ("cogito:14b".toList) [("llama".toList), ("cogito".toList)] = true
    ∧ ModelExists ("cogito".toList) [("cogito:14b".toList)] = true :=
  ⟨C2_modelExists_prefix_matching.1 "cogito".toList "14b".toList
     [("llama".toList), ("cogito".toList)] (by decide) (Or.inl (by decide)),
   C2_modelExists_prefix_matching.2 "cogito".toList "14b".toList
     [("cogito:14b".toList)] (by decide)⟩

/-!
Embedding ingress and egress (handleEmbeddings, handleSingleEmbedding,
handleBatchEmbeddings, handleOllamaEmbedding).  The backend exchange of one
proxied call is an oracle `Jobj → Option Jobj`: `none` collapses transport
errors, non-200 statuses and unparsable bodies, `some resp` is the decoded
response object.
-/

/-- Routing decision of `handleEmbeddings`. -/
inductive EmbRoute where
  | ollamaFormat : EmbRoute
  | single : List J → EmbRoute
  | batch : List J → EmbRoute

/-- Ingress normalization of `handleEmbeddings`: a `prompt`-only body goes to
the native-format handler; otherwise `input` is normalized (string → one item,
array → its items) and a multi-element array is a batch. -/
def embeddingsRoute (requestData : Jobj) : EmbRoute :=
  if (getF requestData "prompt").isSome && !(getF requestData "input").isSome then
    .ollamaFormat
  else
    let inputsBatch : List J × Bool :=
      match getF requestData "input" with
      | some (J.arr xs) =>
        if xs.length > 1 then (xs, true)
        else if xs.length > 0 then (xs, false)
        else ([], false)
      | some (J.str s) => ([J.str s], false)
      | _ => ([], false)
    if inputsBatch.2 && inputsBatch.1.length > 1 then .batch inputsBatch.1
    else .single inputsBatch.1

/-- Vector extraction from a decoded backend response: first the `embeddings`
array's first element, then the `embedding` field; an empty vector counts as
a failure. -/
def extractEmbedding (ollamaResp : Jobj) : Option (List J) :=
  let fromPlural : Option (List J) :=
    match getF ollamaResp "embeddings" with
    | some (J.arr (first :: _)) =>
      match first with
      | J.arr v => some v
      | _ => none
    | _ => none
  let found : Option (List J) :=
    match fromPlural with
    | some v => some v
    | none =>
      match getF ollamaResp "embedding" with
      | some (J.arr v) => some v
      | _ => none
  match found with
  | some v => if v.length = 0 then none else some v
  | none => none

/-- Response envelopes of the embedding handlers: the native shape
`{"embeddings": [...]}`, the compatible shape `{"object":"list","data":[...]}`,
or an error response. -/
inductive EmbResponse where
  | nativeEnv : List (List J) → EmbResponse
  | compatEnv : List (List J) → EmbResponse
  | clientError : EmbResponse
  | serverError : EmbResponse

/-- Batch path of `handleBatchEmbeddings`: one backend call per item, failing
items skipped, error only when no vector at all was produced; envelope chosen
by the inbound path. -/
def handleBatchEmbeddings (cfg path : String) (backend : Jobj → Option Jobj)
    (requestData : Jobj) (inputs : List J) : EmbResponse :=
  let embeddings := inputs.filterMap fun input =>
    (backend (mkBatchSingleRequest cfg requestData input)).bind extractEmbedding
  if embeddings.length = 0 then .serverError
  else if path = "/api/embed" then .nativeEnv embeddings
  else .compatEnv embeddings

/-- Single path of `handleSingleEmbedding`: model rewrite and input→prompt
conversion, one backend call, extraction, envelope chosen by the inbound
path. -/
def handleSingleEmbedding (cfg path : String) (backend : Jobj → Option Jobj)
    (requestData : Jobj) : EmbResponse :=
  match handleSingleEmbeddingBody cfg requestData with
  | none => .clientError
  | some body =>
    match backend body with
    | none => .serverError
    | some resp =>
      match extractEmbedding resp with
      | none => .serverError
      | some v =>
        if path = "/api/embed" then .nativeEnv [v] else .compatEnv [v]

/-- Native-format path of `handleOllamaEmbedding`: the extracted vector is
always wrapped in the compatible envelope, for any inbound path. -/
def handleOllamaEmbedding (cfg : String) (backend : Jobj → Option Jobj)
    (requestData : Jobj) : EmbResponse :=
  match backend (handleOllamaEmbeddingBody cfg requestData) with
  | none => .serverError
  | some resp =>
    match extractEmbedding resp with
    | none => .serverError
    | some v => .compatEnv [v]

/-- Full dispatch of `handleEmbeddings`. -/
def handleEmbeddings (cfg path : String) (backend : Jobj → Option Jobj)
    (requestData : Jobj) : EmbResponse :=
  match embeddingsRoute requestData with
  | .ollamaFormat => handleOllamaEmbedding cfg backend requestData
  | .batch inputs => handleBatchEmbeddings cfg path backend requestData inputs
  | .single _ => handleSingleEmbedding cfg path backend requestData

/-- C3: embedding ingress normalization — a string input and a one-element
array are both handled as a single non-batch item, a two-element array as a
2-item batch; in the batch path a failing item is skipped while the remaining
vectors are returned in input order, and only an entirely failing batch
produces an error response. -/
theorem C3_embedding_normalization_and_batch_skip :
    embeddingsRoute [("model", J.str "m"), ("input", J.str "a")] = .single [J.str "a"]
    ∧ embeddingsRoute [("model", J.str "m"), ("input", J.arr [J.str "a"])]
        = .single [J.str "a"]
    ∧ embeddingsRoute [("model", J.str "m"), ("input", J.arr [J.str "a", J.str "b"])]
        = .batch [J.str "a", J.str "b"]
    ∧ (∀ (cfg path : String) (backend : Jobj → Option Jobj) (req : Jobj)
         (x y z : J) (vx vz : List J),
         (backend (mkBatchSingleRequest cfg req x)).bind extractEmbedding = some vx →
         (backend (mkBatchSingleRequest cfg req y)).bind extractEmbedding = none →
         (backend (mkBatchSingleRequest cfg req z)).bind extractEmbedding = some vz →
         handleBatchEmbeddings cfg path backend req [x, y, z]
           = if path = "/api/embed" then .nativeEnv [vx, vz] else .compatEnv [vx, vz])
    ∧ (∀ (cfg path : String) (backend : Jobj → Option Jobj) (req : Jobj)
         (inputs : List J),
         (∀ input ∈ inputs,
           (backend (mkBatchSingleRequest cfg req input)).bind extractEmbedding = none) →
         handleBatchEmbeddings cfg path backend req inputs = .serverError) := by
  refine ⟨rfl, rfl, rfl, ?_, ?_⟩
  · intro cfg path backend req x y z vx vz hx hy hz
    simp only [handleBatchEmbeddings, List.filterMap_cons, hx, hy, hz, List.filterMap_nil]
    simp
  · intro cfg path backend req inputs hall
    have hnil : (inputs.filterMap fun input =>
        (backend (mkBatchSingleRequest cfg req input)).bind extractEmbedding) = [] :=
      List.filterMap_eq_nil_iff.2 hall
    simp only [handleBatchEmbeddings, hnil]
    simp

/-- C3 witness: a concrete batch with one failing middle item returns the two
valid vectors in order, and a batch whose only item fails is an error. -/
theorem C3_embedding_normalization_and_batch_skip_witness :
    handleBatchEmbeddings "m" "/v1/embeddings"
      (fun body => match getF body "prompt" with
        | some (J.str s) => if s = "bad" then none else some [("embedding", J.arr [J.num 7])]
        | _ => none)
      [("model", J.str "caller")] [J.str "a", J.str "bad", J.str "b"]
      = (if "/v1/embeddings" = "/api/embed"
         then EmbResponse.nativeEnv [[J.num 7], [J.num 7]]
         else EmbResponse.compatEnv [[J.num 7], [J.num 7]])
    ∧ handleBatchEmbeddings "m" "/v1/embeddings"
        (fun body => match getF body "prompt" with
          | some (J.str s) => if s = "bad" then none else some [("embedding", J.arr [J.num 7])]
          | _ => none)
        [("model", J.str "caller")] [J.str "bad"] = .serverError :=
  ⟨C3_embedding_normalization_and_batch_skip.2.2.2.1 "m" "/v1/embeddings" _
     [("model", J.str "caller")] (J.str "a") (J.str "bad") (J.str "b")
     [J.num 7] [J.num 7] rfl rfl rfl,
   C3_embedding_normalization_and_batch_skip.2.2.2.2 "m" "/v1/embeddings" _
     [("model", J.str "caller")] [J.str "bad"]
     (by intro input hi
         rw [List.mem_singleton] at hi
         subst hi
         rfl)⟩

theorem handleOllamaEmbedding_ne_nativeEnv (cfg : String) (backend : Jobj → Option Jobj)
    (req : Jobj) (es : List (List J)) :
    handleOllamaEmbedding cfg backend req ≠ .nativeEnv es := by
  unfold handleOllamaEmbedding
  split
  · exact fun h => EmbResponse.noConfusion h
  · split
    · exact fun h => EmbResponse.noConfusion h
    · exact fun h => EmbResponse.noConfusion h

theorem handleSingleEmbedding_nativeEnv_path (cfg path : String)
    (backend : Jobj → Option Jobj) (req : Jobj) (es : List (List J))
    (h : handleSingleEmbedding cfg path backend req = .nativeEnv es) :
    path = "/api/embed" := by
  unfold handleSingleEmbedding at h
  split at h
  · exact absurd h (fun hh => EmbResponse.noConfusion hh)
  · split at h
    · exact absurd h (fun hh => EmbResponse.noConfusion hh)
    · split at h
      · exact absurd h (fun hh => EmbResponse.noConfusion hh)
      · by_cases hp : path = "/api/embed"
        · exact hp
        · rw [if_neg hp] at h
          exact absurd h (fun hh => EmbResponse.noConfusion hh)

theorem handleBatchEmbeddings_nativeEnv_path (cfg path : String)
    (backend : Jobj → Option Jobj) (req : Jobj) (inputs : List J) (es : List (List J))
    (h : handleBatchEmbeddings cfg path backend req inputs = .nativeEnv es) :
    path = "/api/embed" := by
  simp only [handleBatchEmbeddings] at h
  split at h
  · exact absurd h (fun hh => EmbResponse.noConfusion hh)
  · by_cases hp : path = "/api/embed"
    · exact hp
    · rw [if_neg hp] at h
      exact absurd h (fun hh => EmbResponse.noConfusion hh)

theorem handleSingleEmbedding_embed_ne_compatEnv (cfg : String)
    (backend : Jobj → Option Jobj) (req : Jobj) (es : List (List J)) :
    handleSingleEmbedding cfg "/api/embed" backend req ≠ .compatEnv es := by
  unfold handleSingleEmbedding
  split
  · exact fun h => EmbResponse.noConfusion h
  · split
    · exact fun h => EmbResponse.noConfusion h
    · split
      · exact fun h => EmbResponse.noConfusion h
      · rw [if_pos rfl]
        exact fun h => EmbResponse.noConfusion h

theorem handleBatchEmbeddings_embed_ne_compatEnv (cfg : String)
    (backend : Jobj → Option Jobj) (req : Jobj) (inputs : List J) (es : List (List J)) :
    handleBatchEmbeddings cfg "/api/embed" backend req inputs ≠ .compatEnv es := by
  simp only [handleBatchEmbeddings]
  split
  · exact fun h => EmbResponse.noConfusion h
  · simp only [if_true]
    exact fun h => EmbResponse.noConfusion h

theorem embeddingsRoute_ne_ollama_of_input (req : Jobj)
    (hin : (getF req "input").isSome = true) :
    embeddingsRoute req ≠ .ollamaFormat := by
  unfold embeddingsRoute
  simp only [hin, Bool.not_true, Bool.and_false, Bool.false_eq_true, if_false]
  split
  · exact fun h => EmbRoute.noConfusion h
  · exact fun h => EmbRoute.noConfusion h

theorem embeddingsRoute_ollama_of_prompt (req : Jobj)
    (hp : (getF req "prompt").isSome = true)
    (hin : (getF req "input").isSome = false) :
    embeddingsRoute req = .ollamaFormat := by
  unfold embeddingsRoute
  simp [hp, hin]

/-- C7 counterexample: a native-shape (`prompt`-field) request arriving on
`/api/embed` is answered with the compatible envelope, not the native one. -/
theorem C7_counterexample_prompt_on_api_embed :
    handleEmbeddings "m" "/api/embed" (fun _ => some [("embedding", J.arr [J.num 1])])
      [("model", J.str "m"), ("prompt", J.str "x")] = .compatEnv [[J.num 1]]
    ∧ handleEmbeddings "m" "/api/embed" (fun _ => some [("embedding", J.arr [J.num 1])])
        [("model", J.str "m"), ("prompt", J.str "x")] ≠ .nativeEnv [[J.num 1]] := by
  have h1 : handleEmbeddings "m" "/api/embed" (fun _ => some [("embedding", J.arr [J.num 1])])
      [("model", J.str "m"), ("prompt", J.str "x")] = .compatEnv [[J.num 1]] := rfl
  refine ⟨h1, fun h => ?_⟩
  rw [h1] at h
  exact EmbResponse.noConfusion h

/-- C7 (amended): for `input`-shaped embeddings requests the envelope is chosen
by the inbound path — native exactly on `/api/embed`, compatible elsewhere —
while a `prompt`-shaped (native-dialect) request is answered with the
compatible envelope on every path. -/
theorem C7_envelope_by_path_for_input_requests :
    (∀ (cfg path : String) (backend : Jobj → Option Jobj) (req : Jobj)
       (es : List (List J)),
       handleEmbeddings cfg path backend req = .nativeEnv es → path = "/api/embed")
    ∧ (∀ (cfg : String) (backend : Jobj → Option Jobj) (req : Jobj),
       (getF req "input").isSome = true →
       ∀ es, handleEmbeddings cfg "/api/embed" backend req ≠ .compatEnv es)
    ∧ (∀ (cfg path : String) (backend : Jobj → Option Jobj) (req : Jobj),
       (getF req "prompt").isSome = true → (getF req "input").isSome = false →
       ∀ es, handleEmbeddings cfg path backend req ≠ .nativeEnv es) := by
  refine ⟨?_, ?_, ?_⟩
  · intro cfg path backend req es h
    unfold handleEmbeddings at h
    split at h
    · exact absurd h (handleOllamaEmbedding_ne_nativeEnv cfg backend req es)
    · exact handleBatchEmbeddings_nativeEnv_path cfg path backend req _ es h
    · exact handleSingleEmbedding_nativeEnv_path cfg path backend req es h
  · intro cfg backend req hin es
    unfold handleEmbeddings
    split
    · rename_i hroute
      exact absurd hroute (embeddingsRoute_ne_ollama_of_input req hin)
    · exact handleBatchEmbeddings_embed_ne_compatEnv cfg backend req _ es
    · exact handleSingleEmbedding_embed_ne_compatEnv cfg backend req es
  · intro cfg path backend req hp hin es
    unfold handleEmbeddings
    rw [embeddingsRoute_ollama_of_prompt req hp hin]
    exact handleOllamaEmbedding_ne_nativeEnv cfg backend req es

/-- C7 amended-claim witness: on `/api/embed` an `input` request cannot get the
compatible envelope, and a `prompt`-only request never gets the native one. -/
theorem C7_envelope_by_path_for_input_requests_witness :
    (∀ es, handleEmbeddings "m" "/api/embed" (fun _ => some [("embedding", J.arr [J.num 2])])
       [("model", J.str "m"), ("input", J.str "a")] ≠ .compatEnv es)
    ∧ (∀ es, handleEmbeddings "m" "/api/embeddings"
         (fun _ => some [("embedding", J.arr [J.num 2])])
         [("model", J.str "m"), ("prompt", J.str "x")] ≠ .nativeEnv es) :=
  ⟨C7_envelope_by_path_for_input_requests.2.1 "m"
     (fun _ => some [("embedding", J.arr [J.num 2])])
     [("model", J.str "m"), ("input", J.str "a")] rfl,
   C7_envelope_by_path_for_input_requests.2.2 "m" "/api/embeddings"
     (fun _ => some [("embedding", J.arr [J.num 2])])
     [("model", J.str "m"), ("prompt", J.str "x")] rfl rfl⟩

/-!
Streaming chat translation (`convertOllamaStreamToOpenAI`).  An NDJSON input
line is `some obj` when it decodes to a JSON object and `none` when it is
malformed (or empty); the emitted compatible-dialect events are the delta
chunks, the terminal `finish_reason: stop` chunk and the `data: [DONE]`
sentinel.
-/

/-- One emitted SSE event of the streaming translator. -/
inductive OutChunk where
  | delta : Option String → Option String → OutChunk
  | final : OutChunk
  | sentinel : OutChunk

/-- String field extraction with Go's zero value:
`x, _ := m[k].(string)`. -/
def msgStr (m : Jobj) (k : String) : String :=
  match getF m k with
  | some (J.str s) => s
  | _ => ""

/-- The `done, _ := ollamaResp["done"].(bool)` check. -/
def lineDone (j : Jobj) : Bool :=
  match getF j "done" with
  | some (J.jbool b) => b
  | _ => false

/-- Streaming translation loop of `convertOllamaStreamToOpenAI`: skip malformed
lines, emit the terminal chunk and sentinel on the first `done` line and stop,
otherwise emit a delta carrying the first non-empty role and any non-empty
content. -/
def convertOllamaStreamToOpenAI : List (Option Jobj) → Bool → List OutChunk
  | [], _ => []
  | none :: rest, roleSent => convertOllamaStreamToOpenAI rest roleSent
  | some j :: rest, roleSent =>
    if lineDone j then [.final, .sentinel]
    else
      match getF j "message" with
      | some (J.obj msg) =>
        let content := msgStr msg "content"
        let role := msgStr msg "role"
        let deltaRole : Option String := if !roleSent && role != "" then some role else none
        let deltaContent : Option String := if content != "" then some content else none
        if deltaRole.isSome || deltaContent.isSome then
          .delta deltaRole deltaContent ::
            convertOllamaStreamToOpenAI rest (roleSent || deltaRole.isSome)
        else convertOllamaStreamToOpenAI rest (roleSent || deltaRole.isSome)
      | _ => convertOllamaStreamToOpenAI rest roleSent

/-- Input-side view: the non-empty role carried by a well-formed line. -/
def lineRole (l : Option Jobj) : Option String :=
  match l with
  | none => none
  | some j =>
    match getF j "message" with
    | some (J.obj msg) => if msgStr msg "role" != "" then some (msgStr msg "role") else none
    | _ => none

/-- Input-side view: the non-empty content carried by a well-formed line. -/
def lineContent (l : Option Jobj) : Option String :=
  match l with
  | none => none
  | some j =>
    match getF j "message" with
    | some (J.obj msg) =>
      if msgStr msg "content" != "" then some (msgStr msg "content") else none
    | _ => none

/-- A line that does not terminate the stream. -/
def notDone (l : Option Jobj) : Bool :=
  match l with
  | none => true
  | some j => !lineDone j

/-- Role carried by an emitted chunk. -/
def chunkRole : OutChunk → Option String
  | .delta r _ => r
  | _ => none

/-- Content carried by an emitted chunk. -/
def chunkContent : OutChunk → Option String
  | .delta _ c => c
  | _ => none

/-- Whether an emitted chunk is a delta chunk. -/
def isDelta : OutChunk → Bool
  | .delta _ _ => true
  | _ => false

theorem convertStream_shape (lines : List (Option Jobj)) :
    ∀ rs : Bool, (lines.any fun l => !notDone l) = true →
    ∃ cs, convertOllamaStreamToOpenAI lines rs = cs ++ [.final, .sentinel]
      ∧ (∀ c ∈ cs, isDelta c = true)
      ∧ cs.filterMap chunkRole
          = ((lines.takeWhile notDone).filterMap lineRole).take (if rs then 0 else 1)
      ∧ cs.filterMap chunkContent = (lines.takeWhile notDone).filterMap lineContent := by
  induction lines with
  | nil => intro rs h; simp at h
  | cons l rest ih =>
    intro rs h
    match l with
    | none =>
      have hrest : (rest.any fun l => !notDone l) = true := by
        simpa [notDone] using h
      obtain ⟨cs, hcs, hdelta, hrole, hcontent⟩ := ih rs hrest
      exact ⟨cs, by simpa [convertOllamaStreamToOpenAI] using hcs, hdelta,
        by simpa [List.takeWhile, notDone, lineRole] using hrole,
        by simpa [List.takeWhile, notDone, lineContent] using hcontent⟩
    | some j =>
      by_cases hdone : lineDone j
      · have htake0 : List.takeWhile notDone (some j :: rest) = [] := by
          rw [List.takeWhile_cons]
          simp [notDone, hdone]
        refine ⟨[], ?_, fun c hc => absurd hc (List.not_mem_nil c), ?_, ?_⟩
        · simp [convertOllamaStreamToOpenAI, hdone]
        · simp [htake0]
        · simp [htake0]
      · have hrest : (rest.any fun l => !notDone l) = true := by
          simpa [notDone, hdone] using h
        have htake : ((some j :: rest).takeWhile notDone)
            = some j :: rest.takeWhile notDone := by
          simp [List.takeWhile, notDone, hdone]
        match hmsg : getF j "message" with
        | some (J.obj msg) =>
          have hlineRole : lineRole (some j)
              = (if msgStr msg "role" != "" then some (msgStr msg "role") else none) := by
            simp [lineRole, hmsg]
          have hlineContent : lineContent (some j)
              = (if msgStr msg "content" != "" then some (msgStr msg "content") else none) := by
            simp [lineContent, hmsg]
          by_cases hrole : msgStr msg "role" != ""
          · by_cases hrs : rs
            · -- role already sent: the line's role is not re-emitted
              obtain ⟨cs, hcs, hdelta, hro, hco⟩ := ih true hrest
              by_cases hcont : msgStr msg "content" != ""
              · refine ⟨.delta none (some (msgStr msg "content")) :: cs, ?_, ?_, ?_, ?_⟩
                · simp [convertOllamaStreamToOpenAI, hdone, hmsg, hrs, hcont, hcs]
                · intro c hc
                  rcases List.mem_cons.1 hc with hc | hc
                  · subst hc; rfl
                  · exact hdelta c hc
                · simp only [List.filterMap_cons, chunkRole, htake, hlineRole, hrole, if_pos,
                    hrs, hro]
                  simp [hrs]
                · simp [List.filterMap_cons, chunkContent, htake, hlineContent, hcont, hco]
              · refine ⟨cs, ?_, hdelta, ?_, ?_⟩
                · simp only [convertOllamaStreamToOpenAI, hdone, hmsg, hrs, Bool.not_true,
                    Bool.false_and, hcont]
                  simp [hcs, hrs, hcont]
                · rw [htake, List.filterMap_cons]
                  simp only [hlineRole, hrole, if_pos]
                  rw [hro]
                  simp [hrs]
                · simp [List.filterMap_cons, htake, hlineContent, hcont, hco]
            · -- first non-empty role: emitted once, rest with roleSent
              obtain ⟨cs, hcs, hdelta, hro, hco⟩ := ih true hrest
              refine ⟨.delta (some (msgStr msg "role"))
                  (if msgStr msg "content" != "" then some (msgStr msg "content") else none)
                  :: cs, ?_, ?_, ?_, ?_⟩
              · simp only [convertOllamaStreamToOpenAI, hdone, hmsg]
                simp only [Bool.not_false, eq_self_iff_true, hrs]
                simp [hrole, hcs]
              · intro c hc
                rcases List.mem_cons.1 hc with hc | hc
                · subst hc; rfl
                · exact hdelta c hc
              · rw [htake, List.filterMap_cons]
                simp only [chunkRole, List.filterMap_cons, hlineRole, hrole, if_pos]
                rw [hro]
                simp [hrs]
              · by_cases hcont : msgStr msg "content" != "" <;>
                  simp [List.filterMap_cons, chunkContent, htake, hlineContent, hcont, hco]
          · -- empty role: roleSent unchanged
            obtain ⟨cs, hcs, hdelta, hro, hco⟩ := ih rs hrest
            by_cases hcont : msgStr msg "content" != ""
            · refine ⟨.delta none (some (msgStr msg "content")) :: cs, ?_, ?_, ?_, ?_⟩
              · simp only [convertOllamaStreamToOpenAI, hdone, hmsg, hrole]
                simp [hrole, hcont, hcs]
              · intro c hc
                rcases List.mem_cons.1 hc with hc | hc
                · subst hc; rfl
                · exact hdelta c hc
              · rw [htake, List.filterMap_cons]
                simp only [chunkRole, List.filterMap_cons, hlineRole, hrole]
                simpa using hro
              · simp [List.filterMap_cons, chunkContent, htake, hlineContent, hcont, hco]
            · refine ⟨cs, ?_, hdelta, ?_, ?_⟩
              · simp only [convertOllamaStreamToOpenAI, hdone, hmsg]
                simp [hrole, hcont, hcs]
              · rw [htake, List.filterMap_cons]
                simp only [hlineRole, hrole]
                simpa using hro
              · rw [htake, List.filterMap_cons]
                simp only [hlineContent, hcont]
                simpa using hco
        | some (J.str s) =>
          obtain ⟨cs, hcs, hdelta, hro, hco⟩ := ih rs hrest
          refine ⟨cs, by simpa [convertOllamaStreamToOpenAI, hdone, hmsg] using hcs, hdelta, ?_, ?_⟩
          · rw [htake, List.filterMap_cons]
            simpa [lineRole, hmsg] using hro
          · rw [htake, List.filterMap_cons]
            simpa [lineContent, hmsg] using hco
        | some J.null =>
          obtain ⟨cs, hcs, hdelta, hro, hco⟩ := ih rs hrest
          refine ⟨cs, by simpa [convertOllamaStreamToOpenAI, hdone, hmsg] using hcs, hdelta, ?_, ?_⟩
          · rw [htake, List.filterMap_cons]
            simpa [lineRole, hmsg] using hro
          · rw [htake, List.filterMap_cons]
            simpa [lineContent, hmsg] using hco
        | some (J.jbool b) =>
          obtain ⟨cs, hcs, hdelta, hro, hco⟩ := ih rs hrest
          refine ⟨cs, by simpa [convertOllamaStreamToOpenAI, hdone, hmsg] using hcs, hdelta, ?_, ?_⟩
          · rw [htake, List.filterMap_cons]
            simpa [lineRole, hmsg] using hro
          · rw [htake, List.filterMap_cons]
            simpa [lineContent, hmsg] using hco
        | some (J.num n) =>
          obtain ⟨cs, hcs, hdelta, hro, hco⟩ := ih rs hrest
          refine ⟨cs, by simpa [convertOllamaStreamToOpenAI, hdone, hmsg] using hcs, hdelta, ?_, ?_⟩
          · rw [htake, List.filterMap_cons]
            simpa [lineRole, hmsg] using hro
          · rw [htake, List.filterMap_cons]
            simpa [lineContent, hmsg] using hco
        | some (J.arr xs) =>
          obtain ⟨cs, hcs, hdelta, hro, hco⟩ := ih rs hrest
          refine ⟨cs, by simpa [convertOllamaStreamToOpenAI, hdone, hmsg] using hcs, hdelta, ?_, ?_⟩
          · rw [htake, List.filterMap_cons]
            simpa [lineRole, hmsg] using hro
          · rw [htake, List.filterMap_cons]
            simpa [lineContent, hmsg] using hco
        | none =>
          obtain ⟨cs, hcs, hdelta, hro, hco⟩ := ih rs hrest
          refine ⟨cs, by simpa [convertOllamaStreamToOpenAI, hdone, hmsg] using hcs, hdelta, ?_, ?_⟩
          · rw [htake, List.filterMap_cons]
            simpa [lineRole, hmsg] using hro
          · rw [htake, List.filterMap_cons]
            simpa [lineContent, hmsg] using hco

/-- C4: a native stream containing a `done` line is translated into delta
chunks followed by exactly one terminal chunk and one sentinel, with nothing
after the sentinel; at most one delta carries a role — the first non-empty
one — and there is one content-bearing delta per non-empty-content line, in
order; malformed lines are skipped without aborting the stream. -/
theorem C4_streaming_chat_translation :
    (∀ lines : List (Option Jobj), (lines.any fun l => !notDone l) = true →
      ∃ cs, convertOllamaStreamToOpenAI lines false = cs ++ [.final, .sentinel]
        ∧ (∀ c ∈ cs, isDelta c = true)
        ∧ cs.filterMap chunkRole = ((lines.takeWhile notDone).filterMap lineRole).take 1
        ∧ cs.filterMap chunkContent = (lines.takeWhile notDone).filterMap lineContent)
    ∧ (∀ (rest : List (Option Jobj)) (rs : Bool),
        convertOllamaStreamToOpenAI (none :: rest) rs
          = convertOllamaStreamToOpenAI rest rs) := by
  constructor
  · intro lines h
    simpa using convertStream_shape lines false h
  · intro rest rs
    rfl

/-- C4 witness: a concrete stream with one malformed line, two content lines
(the first also carrying the role), a `done` line and a trailing line. -/
theorem C4_streaming_chat_translation_witness :
    (∃ cs, convertOllamaStreamToOpenAI
        [none,
         some [("message", J.obj [("role", J.str "assistant"), ("content", J.str "Hel")]),
               ("done", J.jbool false)],
         some [("message", J.obj [("role", J.str "assistant"), ("content", J.str "lo")])],
         some [("done", J.jbool true)],
         some [("message", J.obj [("content", J.str "after")])]] false
        = cs ++ [.final, .sentinel]
      ∧ (∀ c ∈ cs, isDelta c = true)
      ∧ cs.filterMap chunkRole
          = (([none,
               some [("message", J.obj [("role", J.str "assistant"), ("content", J.str "Hel")]),
                     ("done", J.jbool false)],
               some [("message", J.obj [("role", J.str "assistant"), ("content", J.str "lo")])],
               some [("done", J.jbool true)],
               some [("message", J.obj [("content", J.str "after")])]].takeWhile
                 notDone).filterMap lineRole).take 1
      ∧ cs.filterMap chunkContent
          = ([none,
              some [("message", J.obj [("role", J.str "assistant"), ("content", J.str "Hel")]),
                    ("done", J.jbool false)],
              some [("message", J.obj [("role", J.str "assistant"), ("content", J.str "lo")])],
              some [("done", J.jbool true)],
              some [("message", J.obj [("content", J.str "after")])]].takeWhile
                notDone).filterMap lineContent)
    ∧ convertOllamaStreamToOpenAI
        [none, some [("done", J.jbool true)]] true
        = convertOllamaStreamToOpenAI [some [("done", J.jbool true)]] true :=
  ⟨C4_streaming_chat_translation.1
     [none,
      some [("message", J.obj [("role", J.str "assistant"), ("content", J.str "Hel")]),
            ("done", J.jbool false)],
      some [("message", J.obj [("role", J.str "assistant"), ("content", J.str "lo")])],
      some [("done", J.jbool true)],
      some [("message", J.obj [("content", J.str "after")])]] rfl,
   C4_streaming_chat_translation.2 [some [("done", J.jbool true)]] true⟩

/-!
Non-streaming chat translation (`convertOllamaToOpenAI`).  The constructed
compatible response object is modelled as a structure whose fields are the
JSON fields the Go code writes; `now` stands for `time.Now().Unix()`.
-/

/-- The compatible chat-completion response built by `convertOllamaToOpenAI`. -/
structure ChatCompletionResponse where
  id : String
  object : String
  created : Int
  model : String
  role : String
  content : String
  finish_reason : String
  prompt_tokens : Int
  completion_tokens : Int
  total_tokens : Int

/-- Translation of a native non-streaming chat reply: requires a `message`
object (else 500, modelled `none`), defaults the role to `assistant` when
empty or absent, fixes `finish_reason` to `stop`, and maps `eval_count` /
`prompt_eval_count` additively into the usage block, leaving absent counters
at 0. -/
def convertOllamaToOpenAI (now : Int) (modelName : String) (ollamaResp : Jobj) :
    Option ChatCompletionResponse :=
  match getF ollamaResp "message" with
  | some (J.obj message) =>
    let content := msgStr message "content"
    let role0 := msgStr message "role"
    let role := if role0 = "" then "assistant" else role0
    let evalCounters : Int × Int :=
      match getF ollamaResp "eval_count" with
      | some (J.num n) => (n, n)
      | _ => (0, 0)
    let promptCounters : Int × Int :=
      match getF ollamaResp "prompt_eval_count" with
      | some (J.num p) => (p, evalCounters.2 + p)
      | _ => (0, evalCounters.2)
    some { id := "chatcmpl-" ++ toString now
           object := "chat.completion"
           created := now
           model := modelName
           role := role
           content := content
           finish_reason := "stop"
           prompt_tokens := promptCounters.1
           completion_tokens := evalCounters.1
           total_tokens := promptCounters.2 }
  | _ => none

/-- C5: the native reply `{"message":{"role":"assistant","content":"hi"},
"done":true,"eval_count":3}` translates to content `hi`, finish reason `stop`
and 3 completion tokens; an absent native role defaults to `assistant`, and
absent token counters leave the corresponding usage fields at 0. -/
theorem C5_nonstreaming_chat_translation :
    (∃ r, convertOllamaToOpenAI 0 "m"
        [("message", J.obj [("role", J.str "assistant"), ("content", J.str "hi")]),
         ("done", J.jbool true), ("eval_count", J.num 3)] = some r
      ∧ r.content = "hi" ∧ r.finish_reason = "stop" ∧ r.completion_tokens = 3
      ∧ r.total_tokens = 3)
    ∧ (∀ (now : Int) (modelName : String) (resp message : Jobj) (r : ChatCompletionResponse),
        getF resp "message" = some (J.obj message) →
        getF message "role" = none →
        convertOllamaToOpenAI now modelName resp = some r →
        r.role = "assistant")
    ∧ (∀ (now : Int) (modelName : String) (resp : Jobj) (r : ChatCompletionResponse),
        getF resp "eval_count" = none →
        convertOllamaToOpenAI now modelName resp = some r →
        r.completion_tokens = 0)
    ∧ (∀ (now : Int) (modelName : String) (resp : Jobj) (r : ChatCompletionResponse),
        getF resp "prompt_eval_count" = none →
        convertOllamaToOpenAI now modelName resp = some r →
        r.prompt_tokens = 0) := by
  refine ⟨⟨_, rfl, rfl, rfl, rfl, rfl⟩, ?_, ?_, ?_⟩
  · intro now modelName resp message r hmsg hrole h
    rw [convertOllamaToOpenAI, hmsg] at h
    rw [Option.some_inj] at h
    subst h
    simp [msgStr, hrole]
  · intro now modelName resp r heval h
    unfold convertOllamaToOpenAI at h
    split at h
    · rw [heval] at h
      rw [Option.some_inj] at h
      subst h
      rfl
    · exact absurd h (by simp)
  · intro now modelName resp r hprompt h
    unfold convertOllamaToOpenAI at h
    split at h
    · rw [hprompt] at h
      rw [Option.some_inj] at h
      subst h
      rfl
    · exact absurd h (by simp)

/-- C5 witness: a native reply with no role and no counters yields the default
`assistant` role and zeroed usage fields. -/
theorem C5_nonstreaming_chat_translation_witness :
    (convertOllamaToOpenAI 5 "m" [("message", J.obj [("content", J.str "hey")]),
        ("done", J.jbool true)]).map (fun r => r.role) = some "assistant"
    ∧ (convertOllamaToOpenAI 5 "m" [("message", J.obj [("content", J.str "hey")]),
        ("done", J.jbool true)]).map (fun r => r.completion_tokens) = some 0
    ∧ (convertOllamaToOpenAI 5 "m" [("message", J.obj [("content", J.str "hey")]),
        ("done", J.jbool true)]).map (fun r => r.prompt_tokens) = some 0 := by
  obtain ⟨r, hr⟩ : ∃ r, convertOllamaToOpenAI 5 "m"
      [("message", J.obj [("content", J.str "hey")]), ("done", J.jbool true)] = some r :=
    ⟨_, rfl⟩
  refine ⟨?_, ?_, ?_⟩
  · rw [hr]
    exact congrArg some (C5_nonstreaming_chat_translation.2.1 5 "m"
      [("message", J.obj [("content", J.str "hey")]), ("done", J.jbool true)]
      [("content", J.str "hey")] r rfl rfl hr)
  · rw [hr]
    exact congrArg some (C5_nonstreaming_chat_translation.2.2.1 5 "m"
      [("message", J.obj [("content", J.str "hey")]), ("done", J.jbool true)] r rfl hr)
  · rw [hr]
    exact congrArg some (C5_nonstreaming_chat_translation.2.2.2 5 "m"
      [("message", J.obj [("content", J.str "hey")]), ("done", J.jbool true)] r rfl hr)

/-!
Progress store (`ProgressManager`, src/unnamed/part_002).  Times are Unix
seconds as integers; the float percentage is modelled as a rational.  The
mutation that `saveState` performs on `pm.duration` (recompute when the stored
duration is not positive) is part of the in-memory state transition.
-/

/-- In-memory state of the download progress manager. -/
structure ProgressManager where
  status : String
  progress : ℚ
  total : Int
  completed : Int
  modelName : String
  appURL : String
  startTime : Int
  completedAt : Option Int
  duration : Int

/-- The persisted JSON state file content. -/
structure persistedState where
  status : String
  model_name : String
  completed_at : Int
  duration : Int

/-- State-file reload of `loadState`: a previously completed run restores
status, model name, completion time and duration; anything else is ignored. -/
def loadState (file : Option persistedState) (pm : ProgressManager) : ProgressManager :=
  match file with
  | none => pm
  | some st =>
    if st.status = "completed" ∧ st.completed_at > 0 then
      { pm with status := st.status, modelName := st.model_name,
                completedAt := some st.completed_at, duration := st.duration }
    else pm

/-- The `saveState` duration bookkeeping: a positive stored duration is kept,
otherwise it is recomputed from `completedAt - startTime` and written back. -/
def saveState (pm : ProgressManager) : ProgressManager :=
  match pm.completedAt with
  | none => pm
  | some t =>
    if pm.duration > 0 then pm
    else { pm with duration := t - pm.startTime }

/-- `UpdateProgress`: overwrite the live fields, recompute the percentage when
a total is known, and on a `completed`/`success` status set `completedAt` and
`duration` only if `completedAt` is still unset, then persist. -/
def UpdateProgress (now : Int) (status : String) (completed total : Int)
    (modelName : String) (pm : ProgressManager) : ProgressManager :=
  let pm1 := { pm with status := status, completed := completed, total := total,
                       modelName := modelName,
                       progress := if total > 0
                         then (completed : ℚ) / (total : ℚ) * 100
                         else pm.progress }
  if status = "completed" ∨ status = "success" then
    match pm1.completedAt with
    | none => saveState { pm1 with completedAt := some now,
                                   duration := now - pm1.startTime }
    | some _ => saveState pm1
  else pm1

/-- C6 counterexample: with a persisted completion whose stored duration is 0,
a later `completed` update leaves `completedAt` untouched but rewrites
`duration` (to `completedAt - startTime` of the new process), so the claim
that no subsequent update changes the duration fails. -/
theorem C6_counterexample_zero_duration_rewritten :
    (loadState (some ⟨"completed", "m", 100, 0⟩)
        ⟨"", 0, 0, 0, "", "", 1000, none, 0⟩).completedAt = some 100
    ∧ (loadState (some ⟨"completed", "m", 100, 0⟩)
        ⟨"", 0, 0, 0, "", "", 1000, none, 0⟩).duration = 0
    ∧ (UpdateProgress 2000 "completed" 0 0 "m"
        (loadState (some ⟨"completed", "m", 100, 0⟩)
          ⟨"", 0, 0, 0, "", "", 1000, none, 0⟩)).completedAt = some 100
    ∧ (UpdateProgress 2000 "completed" 0 0 "m"
        (loadState (some ⟨"completed", "m", 100, 0⟩)
          ⟨"", 0, 0, 0, "", "", 1000, none, 0⟩)).duration = -900 :=
  ⟨rfl, rfl, rfl, rfl⟩

/-- C6 (amended): once `completedAt` is set — by an update or by reload — no
later `UpdateProgress` call changes it; the associated duration is likewise
never changed once it is positive, while a non-positive stored duration is
recomputed by a later `completed`/`success` update. -/
theorem C6_completedAt_immutable :
    (∀ (now : Int) (status : String) (completed total : Int) (modelName : String)
       (pm : ProgressManager) (t : Int),
       pm.completedAt = some t →
       (UpdateProgress now status completed total modelName pm).completedAt = some t)
    ∧ (∀ (now : Int) (status : String) (completed total : Int) (modelName : String)
         (pm : ProgressManager) (t : Int),
         pm.completedAt = some t → pm.duration > 0 →
         (UpdateProgress now status completed total modelName pm).duration = pm.duration)
    ∧ (∀ (file : persistedState) (pm : ProgressManager),
         file.status = "completed" → file.completed_at > 0 →
         (loadState (some file) pm).completedAt = some file.completed_at
         ∧ (loadState (some file) pm).duration = file.duration) := by
  refine ⟨?_, ?_, ?_⟩
  · intro now status completed total modelName pm t ht
    unfold UpdateProgress saveState
    by_cases hs : status = "completed" ∨ status = "success"
    · simp only [hs, if_true, ht]
      split <;> rfl
    · simp only [hs, if_false]
      exact ht
  · intro now status completed total modelName pm t ht hd
    unfold UpdateProgress saveState
    by_cases hs : status = "completed" ∨ status = "success"
    · simp only [hs, if_true, ht, hd]
    · simp only [hs, if_false]
  · intro file pm hst hat
    simp only [loadState]
    rw [if_pos ⟨hst, hat⟩]
    exact ⟨rfl, rfl⟩

/-- C6 amended-claim witness: a set completion time and positive duration
survive a later error report and a later completed report. -/
theorem C6_completedAt_immutable_witness :
    (UpdateProgress 3000 "error" 0 0 "m"
       ⟨"completed", 0, 0, 0, "m", "", 1000, some 2000, 17⟩).completedAt = some 2000
    ∧ (UpdateProgress 3000 "error" 0 0 "m"
         ⟨"completed", 0, 0, 0, "m", "", 1000, some 2000, 17⟩).duration = 17
    ∧ (UpdateProgress 3000 "completed" 0 0 "m"
         ⟨"completed", 0, 0, 0, "m", "", 1000, some 2000, 17⟩).completedAt = some 2000
    ∧ (UpdateProgress 3000 "completed" 0 0 "m"
         ⟨"completed", 0, 0, 0, "m", "", 1000, some 2000, 17⟩).duration = 17
    ∧ (loadState (some ⟨"completed", "m", 42, 7⟩)
         ⟨"", 0, 0, 0, "", "", 1000, none, 0⟩).completedAt = some 42 :=
  ⟨C6_completedAt_immutable.1 3000 "error" 0 0 "m"
     ⟨"completed", 0, 0, 0, "m", "", 1000, some 2000, 17⟩ 2000 rfl,
   C6_completedAt_immutable.2.1 3000 "error" 0 0 "m"
     ⟨"completed", 0, 0, 0, "m", "", 1000, some 2000, 17⟩ 2000 rfl (by norm_num),
   C6_completedAt_immutable.1 3000 "completed" 0 0 "m"
     ⟨"completed", 0, 0, 0, "m", "", 1000, some 2000, 17⟩ 2000 rfl,
   C6_completedAt_immutable.2.1 3000 "completed" 0 0 "m"
     ⟨"completed", 0, 0, 0, "m", "", 1000, some 2000, 17⟩ 2000 rfl (by norm_num),
   (C6_completedAt_immutable.2.2 ⟨"completed", "m", 42, 7⟩
     ⟨"", 0, 0, 0, "", "", 1000, none, 0⟩ rfl (by norm_num)).1⟩

/-!
Model acquisition (`ensureModel` in src/main.go driving `PullModelWithProgress`
of src/unnamed/part_003).  Network behaviour is an oracle environment: the
pull POST outcome, the decoded stream statuses, the existence polls of the
background-wait window (whose length is wall-clock determined, hence an
oracle count), and the existence/usability probes of the verification loop.
Traces are the status strings recorded in the progress store, in order.
-/

/-- Oracle environment for one `PullModelWithProgress` call. -/
structure PullEnv where
  postResult : Option Bool
  tuples : List String
  decodeError : Bool
  waitPollCount : Nat
  waitPollExists : Nat → Bool
  verifyExists : Nat → Option Bool
  verifyUsable : Nat → Option Bool

/-- Background-wait polling loop after the pull stream ends: poll `ModelExists`
every 5 seconds, return early on success, log-update `downloading` every 30
seconds. -/
def waitLoop (f : Nat → Bool) : Nat → Nat → List String × Bool
  | _, 0 => ([], false)
  | i, n+1 =>
    if f i then (["completed"], true)
    else
      ((if (5 * i) % 30 = 0 then ["downloading"] else []) ++ (waitLoop f (i+1) n).1,
       (waitLoop f (i+1) n).2)

/-- Verification loop: up to 10 `ModelExists` probes with backoff, recording
`verifying` between attempts, falling back to `ModelUsable` from attempt 3 on,
recording `completed` on success and `error` on exhaustion. -/
def verifyLoop (ve vu : Nat → Option Bool) : Nat → Nat → List String × Bool
  | _, 0 => (["error"], false)
  | attempt, n+1 =>
    match ve attempt with
    | none =>
      if attempt = 10 then
        ((if attempt > 1 then ["verifying"] else []) ++ ["error"], false)
      else
        ((if attempt > 1 then ["verifying"] else [])
          ++ "verifying" :: (verifyLoop ve vu (attempt+1) n).1,
         (verifyLoop ve vu (attempt+1) n).2)
    | some true => ((if attempt > 1 then ["verifying"] else []) ++ ["completed"], true)
    | some false =>
      if 3 ≤ attempt ∧ vu attempt = some true then
        ((if attempt > 1 then ["verifying"] else []) ++ ["completed"], true)
      else
        ((if attempt > 1 then ["verifying"] else [])
          ++ "verifying" :: (verifyLoop ve vu (attempt+1) n).1,
         (verifyLoop ve vu (attempt+1) n).2)

/-- Status trace and outcome of one `PullModelWithProgress` call:
`starting`, transport/status failure → `error`; otherwise `downloading`, the
decoded stream statuses, a decode failure → `error`; otherwise the post-stream
`downloading` update, the background-wait window, and on fallthrough the
pre-verification `verifying` update and the verification loop. -/
def PullModelWithProgress (e : PullEnv) : List String × Bool :=
  match e.postResult with
  | none => (["starting", "error"], false)
  | some false => (["starting", "error"], false)
  | some true =>
    if e.decodeError then
      ("starting" :: "downloading" :: e.tuples ++ ["error"], false)
    else
      if (waitLoop e.waitPollExists 1 e.waitPollCount).2 then
        ("starting" :: "downloading" :: e.tuples
           ++ "downloading" :: (waitLoop e.waitPollExists 1 e.waitPollCount).1, true)
      else
        ("starting" :: "downloading" :: e.tuples
           ++ "downloading" :: ((waitLoop e.waitPollExists 1 e.waitPollCount).1
               ++ "verifying" :: (verifyLoop e.verifyExists e.verifyUsable 1 10).1),
         (verifyLoop e.verifyExists e.verifyUsable 1 10).2)

/-- Oracle environment for one `ensureModel` run: initial existence check, a
pull environment per attempt, the pre-retry existence check after a failed
attempt (`checkErr == nil && exists`), and the double check after a successful
pull (`some false` forces the not-available retry path). -/
structure EnsureEnv where
  initialExists : Option Bool
  pulls : Nat → PullEnv
  retryCheck : Nat → Option Bool
  postCheck : Nat → Option Bool

/-- The retry loop of `ensureModel` (maxRetries = 3): trace of recorded
statuses, success flag, and number of pull attempts consumed. -/
def ensureLoop (env : EnsureEnv) : Nat → Nat → List String × Bool × Nat
  | _, 0 => ([], true, 0)
  | attempt, n+1 =>
    if (PullModelWithProgress (env.pulls attempt)).2 then
      if env.postCheck attempt = some false then
        if attempt < 3 then
          ((PullModelWithProgress (env.pulls attempt)).1 ++ (ensureLoop env (attempt+1) n).1,
           (ensureLoop env (attempt+1) n).2.1, (ensureLoop env (attempt+1) n).2.2 + 1)
        else ((PullModelWithProgress (env.pulls attempt)).1 ++ ["error"], false, 1)
      else ((PullModelWithProgress (env.pulls attempt)).1 ++ ["completed"], true, 1)
    else
      if env.retryCheck attempt = some true then
        ((PullModelWithProgress (env.pulls attempt)).1 ++ ["completed"], true, 1)
      else if attempt = 3 then
        ((PullModelWithProgress (env.pulls attempt)).1 ++ ["error"], false, 1)
      else
        ((PullModelWithProgress (env.pulls attempt)).1 ++ (ensureLoop env (attempt+1) n).1,
         (ensureLoop env (attempt+1) n).2.1, (ensureLoop env (attempt+1) n).2.2 + 1)

/-- `ensureModel`: warm start records `completed` once; a failed initial check
aborts with no updates; otherwise `downloading` is recorded and the retry loop
runs with budget 3. -/
def ensureModel (env : EnsureEnv) : List String × Bool :=
  match env.initialExists with
  | none => ([], false)
  | some true => (["completed"], true)
  | some false =>
    ("downloading" :: (ensureLoop env 1 3).1, (ensureLoop env 1 3).2.1)

theorem ensureLoop_fail_ends_error (env : EnsureEnv) :
    ∀ (f a : Nat), (ensureLoop env a f).2.1 = false →
      ∃ tr, (ensureLoop env a f).1 = tr ++ ["error"] := by
  intro f
  induction f with
  | zero =>
    intro a h
    simp [ensureLoop] at h
  | succ n ih =>
    intro a h
    simp only [ensureLoop] at h ⊢
    by_cases hp : (PullModelWithProgress (env.pulls a)).2 = true
    · simp only [hp, if_true] at h ⊢
      by_cases hpc : env.postCheck a = some false
      · simp only [hpc, if_pos] at h ⊢
        by_cases ha : a < 3
        · simp only [ha, if_true] at h ⊢
          obtain ⟨tr, htr⟩ := ih (a+1) h
          exact ⟨(PullModelWithProgress (env.pulls a)).1 ++ tr,
            by rw [htr, List.append_assoc]⟩
        · simp only [ha, if_false] at h ⊢
          exact ⟨(PullModelWithProgress (env.pulls a)).1, rfl⟩
      · rw [if_neg hpc] at h
        simp at h
    · simp only [Bool.not_eq_true] at hp
      simp only [hp, Bool.false_eq_true, if_false] at h ⊢
      by_cases hr : env.retryCheck a = some true
      · rw [if_pos hr] at h
        simp at h
      · rw [if_neg hr] at h ⊢
        by_cases ha : a = 3
        · simp only [ha, if_true] at h ⊢
          exact ⟨(PullModelWithProgress (env.pulls 3)).1, rfl⟩
        · simp only [ha, if_false] at h ⊢
          obtain ⟨tr, htr⟩ := ih (a+1) h
          exact ⟨(PullModelWithProgress (env.pulls a)).1 ++ tr,
            by rw [htr, List.append_assoc]⟩

theorem ensureLoop_fail_consumes_fuel (env : EnsureEnv) :
    ∀ (f a : Nat), a + f = 4 → (ensureLoop env a f).2.1 = false →
      (ensureLoop env a f).2.2 = f := by
  intro f
  induction f with
  | zero =>
    intro a _ h
    simp [ensureLoop] at h
  | succ n ih =>
    intro a hof h
    simp only [ensureLoop] at h ⊢
    by_cases hp : (PullModelWithProgress (env.pulls a)).2 = true
    · simp only [hp, if_true] at h ⊢
      by_cases hpc : env.postCheck a = some false
      · simp only [hpc, if_pos] at h ⊢
        by_cases ha : a < 3
        · simp only [ha, if_true] at h ⊢
          rw [ih (a+1) (by omega) h]
        · simp only [ha, if_false] at h ⊢
          omega
      · rw [if_neg hpc] at h
        simp at h
    · simp only [Bool.not_eq_true] at hp
      simp only [hp, Bool.false_eq_true, if_false] at h ⊢
      by_cases hr : env.retryCheck a = some true
      · rw [if_pos hr] at h
        simp at h
      · rw [if_neg hr] at h ⊢
        by_cases ha : a = 3
        · simp only [ha, if_true] at h ⊢
          omega
        · simp only [ha, if_false] at h ⊢
          rw [ih (a+1) (by omega) h]

/-- C8 counterexample: attempt 1's pull POST fails, so the inner call records
`error` before any retry; the pre-retry existence check then finds the model
and the run ends `completed` — `error` was recorded even though the 3-attempt
budget was not exhausted and the run did not end in the error state. -/
theorem C8_counterexample_transient_error_before_retry :
    ensureModel ⟨some false,
        fun _ => ⟨none, [], false, 0, fun _ => false, fun _ => none, fun _ => none⟩,
        fun _ => some true, fun _ => none⟩
      = (["downloading", "starting", "error", "completed"], true)
    ∧ "error" ∈ (ensureModel ⟨some false,
        fun _ => ⟨none, [], false, 0, fun _ => false, fun _ => none, fun _ => none⟩,
        fun _ => some true, fun _ => none⟩).1 := by
  have h : ensureModel ⟨some false,
      fun _ => ⟨none, [], false, 0, fun _ => false, fun _ => none, fun _ => none⟩,
      fun _ => some true, fun _ => none⟩
      = (["downloading", "starting", "error", "completed"], true) := rfl
  refine ⟨h, ?_⟩
  rw [h]
  simp

/-- C8 (amended): a failed `ensureModel` run either recorded nothing (the
initial existence check itself failed) or its trace ends with `error`, and in
the latter case all 3 download attempts were consumed; after a failed attempt
a positive pre-retry existence check ends the run `completed`; failing
attempts before the last can still record transient `error` statuses. -/
theorem C8_error_terminal_after_three_attempts :
    (∀ env : EnsureEnv, (ensureModel env).2 = false →
      (ensureModel env).1 = [] ∨ ∃ tr, (ensureModel env).1 = tr ++ ["error"])
    ∧ (∀ env : EnsureEnv, env.initialExists = some false → (ensureModel env).2 = false →
        (ensureLoop env 1 3).2.2 = 3)
    ∧ (∀ (env : EnsureEnv) (a f : Nat),
        (PullModelWithProgress (env.pulls a)).2 = false →
        env.retryCheck a = some true →
        ensureLoop env a (f+1)
          = ((PullModelWithProgress (env.pulls a)).1 ++ ["completed"], true, 1)) := by
  refine ⟨?_, ?_, ?_⟩
  · intro env h
    unfold ensureModel at h ⊢
    match hi : env.initialExists with
    | none => exact Or.inl rfl
    | some true =>
      rw [hi] at h
      exact Bool.noConfusion h
    | some false =>
      rw [hi] at h
      have h' : (ensureLoop env 1 3).2.1 = false := h
      obtain ⟨tr, htr⟩ := ensureLoop_fail_ends_error env 3 1 h'
      refine Or.inr ⟨"downloading" :: tr, ?_⟩
      show "downloading" :: (ensureLoop env 1 3).1 = ("downloading" :: tr) ++ ["error"]
      rw [htr]
      rfl
  · intro env hi h
    unfold ensureModel at h
    rw [hi] at h
    exact ensureLoop_fail_consumes_fuel env 3 1 (by omega) h
  · intro env a f hp hr
    simp only [ensureLoop]
    rw [if_neg (by simp [hp]), if_pos hr]

/-- C8 amended-claim witness: three failing attempts with failing pre-retry
checks end in a trace that finishes with `error` after consuming all 3
attempts, and a failed attempt whose pre-retry check succeeds completes. -/
theorem C8_error_terminal_after_three_attempts_witness :
    ((ensureModel ⟨some false,
        fun _ => ⟨none, [], false, 0, fun _ => false, fun _ => none, fun _ => none⟩,
        fun _ => some false, fun _ => none⟩).1 = []
      ∨ ∃ tr, (ensureModel ⟨some false,
          fun _ => ⟨none, [], false, 0, fun _ => false, fun _ => none, fun _ => none⟩,
          fun _ => some false, fun _ => none⟩).1 = tr ++ ["error"])
    ∧ (ensureLoop ⟨some false,
        fun _ => ⟨none, [], false, 0, fun _ => false, fun _ => none, fun _ => none⟩,
        fun _ => some false, fun _ => none⟩ 1 3).2.2 = 3
    ∧ ensureLoop ⟨some false,
        fun _ => ⟨none, [], false, 0, fun _ => false, fun _ => none, fun _ => none⟩,
        fun _ => some true, fun _ => none⟩ 1 3
        = ((PullModelWithProgress
            ⟨none, [], false, 0, fun _ => false, fun _ => none, fun _ => none⟩).1
           ++ ["completed"], true, 1) :=
  ⟨C8_error_terminal_after_three_attempts.1
     ⟨some false,
      fun _ => ⟨none, [], false, 0, fun _ => false, fun _ => none, fun _ => none⟩,
      fun _ => some false, fun _ => none⟩ rfl,
   C8_error_terminal_after_three_attempts.2.1
     ⟨some false,
      fun _ => ⟨none, [], false, 0, fun _ => false, fun _ => none, fun _ => none⟩,
      fun _ => some false, fun _ => none⟩ rfl rfl,
   C8_error_terminal_after_three_attempts.2.2
     ⟨some false,
      fun _ => ⟨none, [], false, 0, fun _ => false, fun _ => none, fun _ => none⟩,
      fun _ => some true, fun _ => none⟩ 1 2 rfl rfl⟩

/-!
Method validation of the inference routes (handleGenerate, handleChat,
handleEmbeddings, handleOpenAIChat, handleOpenAICompletions).  Only the
method-dispatch head of each handler is modelled: the response status, whether
the body written is JSON (`http.Error` writes plain text), and the `Allow`
header if one is set.
-/

/-- Outcome of a handler's method check. -/
inductive MethodResponse where
  | proceed : MethodResponse
  | resp : Nat → Bool → Option String → MethodResponse
deriving DecidableEq

/-- Method gate of `handleGenerate`: OPTIONS → 204; non-POST →
`http.Error` 405 (plain text, no Allow header). -/
def handleGenerateMethod (m : String) : MethodResponse :=
  if m = "OPTIONS" then .resp 204 false none
  else if m ≠ "POST" then .resp 405 false none
  else .proceed

/-- Method gate of `handleChat`: OPTIONS → 204; GET → 200 JSON status object
with an Allow header; other non-POST → 405 JSON error with an Allow header. -/
def handleChatMethod (m : String) : MethodResponse :=
  if m = "OPTIONS" then .resp 204 false none
  else if m = "GET" then .resp 200 true (some "POST, GET, OPTIONS")
  else if m ≠ "POST" then .resp 405 true (some "POST, GET, OPTIONS")
  else .proceed

/-- Method gate of `handleEmbeddings`: OPTIONS → 204; non-POST →
`http.Error` 405 (plain text, no Allow header). -/
def handleEmbeddingsMethod (m : String) : MethodResponse :=
  if m = "OPTIONS" then .resp 204 false none
  else if m ≠ "POST" then .resp 405 false none
  else .proceed

/-- Method gate of `handleOpenAIChat`: OPTIONS → 204; GET → 200 JSON; other
non-POST → 405 JSON error without an Allow header. -/
def handleOpenAIChatMethod (m : String) : MethodResponse :=
  if m = "OPTIONS" then .resp 204 false none
  else if m = "GET" then .resp 200 true none
  else if m ≠ "POST" then .resp 405 true none
  else .proceed

/-- Method gate of `handleOpenAICompletions`: same shape as the chat
completions gate. -/
def handleOpenAICompletionsMethod (m : String) : MethodResponse :=
  if m = "OPTIONS" then .resp 204 false none
  else if m = "GET" then .resp 200 true none
  else if m ≠ "POST" then .resp 405 true none
  else .proceed

/-- C9 counterexample: DELETE on `/api/generate` is answered 405 by
`http.Error` — a plain-text body with no `Allow` header — so the claim that
every inference route's 405 carries a structured JSON body and an `Allow`
header fails. -/
theorem C9_counterexample_generate_plaintext_405 :
    handleGenerateMethod "DELETE" = .resp 405 false none
    ∧ handleGenerateMethod "DELETE" ≠ .resp 405 true (some "POST, GET, OPTIONS") := by
  refine ⟨rfl, fun ha => ?_⟩
  rw [show handleGenerateMethod "DELETE" = .resp 405 false none from rfl] at ha
  injection ha with h1 h2 h3
  exact Bool.noConfusion h2

/-- C9 (amended): every inference route answers unsupported methods with 405
and OPTIONS with 204, but only `/api/chat` sends a JSON 405 with an `Allow`
header; `/api/generate` and the embeddings route send a plain-text 405 with no
`Allow` header, and the compatible chat/completions routes send a JSON 405
with no `Allow` header. -/
theorem C9_method_validation_per_route :
    (∀ m, m ≠ "OPTIONS" → m ≠ "POST" →
      handleGenerateMethod m = .resp 405 false none)
    ∧ (∀ m, m ≠ "OPTIONS" → m ≠ "POST" →
        handleEmbeddingsMethod m = .resp 405 false none)
    ∧ (∀ m, m ≠ "OPTIONS" → m ≠ "GET" → m ≠ "POST" →
        handleChatMethod m = .resp 405 true (some "POST, GET, OPTIONS"))
    ∧ (∀ m, m ≠ "OPTIONS" → m ≠ "GET" → m ≠ "POST" →
        handleOpenAIChatMethod m = .resp 405 true none)
    ∧ (∀ m, m ≠ "OPTIONS" → m ≠ "GET" → m ≠ "POST" →
        handleOpenAICompletionsMethod m = .resp 405 true none)
    ∧ handleGenerateMethod "OPTIONS" = .resp 204 false none
    ∧ handleEmbeddingsMethod "OPTIONS" = .resp 204 false none
    ∧ handleChatMethod "OPTIONS" = .resp 204 false none
    ∧ handleOpenAIChatMethod "OPTIONS" = .resp 204 false none
    ∧ handleOpenAICompletionsMethod "OPTIONS" = .resp 204 false none := by
  refine ⟨?_, ?_, ?_, ?_, ?_, rfl, rfl, rfl, rfl, rfl⟩
  · intro m h1 h2
    simp [handleGenerateMethod, h1, h2]
  · intro m h1 h2
    simp [handleEmbeddingsMethod, h1, h2]
  · intro m h1 h2 h3
    simp [handleChatMethod, h1, h2, h3]
  · intro m h1 h2 h3
    simp [handleOpenAIChatMethod, h1, h2, h3]
  · intro m h1 h2 h3
    simp [handleOpenAICompletionsMethod, h1, h2, h3]

/-- C9 amended-claim witness: concrete DELETE requests on each route. -/
theorem C9_method_validation_per_route_witness :
    handleGenerateMethod "DELETE" = .resp 405 false none
    ∧ handleEmbeddingsMethod "DELETE" = .resp 405 false none
    ∧ handleChatMethod "DELETE" = .resp 405 true (some "POST, GET, OPTIONS")
    ∧ handleOpenAIChatMethod "DELETE" = .resp 405 true none
    ∧ handleOpenAICompletionsMethod "DELETE" = .resp 405 true none :=
  ⟨C9_method_validation_per_route.1 "DELETE" (by decide) (by decide),
   C9_method_validation_per_route.2.1 "DELETE" (by decide) (by decide),
   C9_method_validation_per_route.2.2.1 "DELETE" (by decide) (by decide) (by decide),
   C9_method_validation_per_route.2.2.2.1 "DELETE" (by decide) (by decide) (by decide),
   C9_method_validation_per_route.2.2.2.2.1 "DELETE" (by decide) (by decide) (by decide)⟩
